import Mathlib

/-!
Verification development for the dogmu input-remapping engine
(src/main.rs, src/config.rs, src/atomic_f32.rs).

The embedding below translates the Rust source into Lean:
* `Remap`, `Config`, `Config.check_error`, `Config.get_remap` come from
  src/config.rs;
* `press_input`, `left_stick` (as the per-tick function `leftStickTick`),
  `right_stick` (as `rightStickTick`) come from src/main.rs;
* f32 values are modelled as real numbers (configuration constants as
  rationals, cast into the reals where the code does float arithmetic);
* the side-effecting device calls (enigo key/button/move calls, task spawns,
  process spawns) are modelled as an emitted trace of `Effect`s, and the
  process-wide mutable state (IS_ALTERNATIVE_ACTIVE, REPEAT_KEY_ABORT_HANDLE)
  as an explicit `EngineState` threaded through `press_input`.
-/

/-- Keys handed to enigo (`enigo::Key`); their identity is all that matters
to the engine, so they are modelled as strings. -/
abbrev Key := String

/-- Mouse buttons handed to enigo (`enigo::Button`), modelled as strings. -/
abbrev MouseButton := String

/-- The five remap action kinds of `config.rs::Remap`.  The source constructor
`Repeat` is named `repeatKey` here because `repeat` is reserved in Lean. -/
inductive Remap where
  | seq (keys : List Key)
  | sync (keys : List Key)
  | repeatKey (key : Key)
  | mouse (button : MouseButton)
  | command (cmdline : String)
deriving DecidableEq, Repr

/-- `config.rs::Config`.  Durations are in milliseconds; the f32 tunables are
modelled as rationals.  The field defaults are the `default_*` functions of
config.rs.  The two HashMaps are modelled as association lists. -/
structure Config where
  key_repeat_initial_delay : ℚ := 400
  key_repeat_sub_delay : ℚ := 40
  left_stick_poll_interval : ℚ := 10
  left_stick_dead_zone : ℚ := 0.05
  mouse_initial_speed : ℚ := 10
  mouse_max_speed : ℚ := 20
  mouse_ticks_to_reach_max_speed : ℚ := 30
  right_stick_poll_interval : ℚ := 50
  right_stick_trigger_zone : ℚ := 0.3
  right_stick_dead_zone : ℚ := 0.1
  alternative_activator : Option String := none
  main : List (String × Remap) := []
  alt : List (String × Remap) := []
deriving DecidableEq, Repr

/-- The configuration built entirely from defaults (serde `#[serde(default)]`
on an empty file). -/
def default_config : Config := {}

/-- `Config::check_error` (config.rs lines 83-102): validates the zones and
the activator, returning the configuration unchanged on success. -/
def Config.check_error (c : Config) : Except String Config :=
  if c.left_stick_dead_zone ≤ 0 ∨ c.right_stick_trigger_zone ≤ 0 ∨
      c.right_stick_dead_zone ≤ 0 then
    Except.error "Negative zone size"
  else if c.right_stick_trigger_zone < c.right_stick_dead_zone then
    Except.error "Trigger zone smaller than dead zone"
  else
    match c.alternative_activator with
    | some activator =>
        if (c.main.lookup activator).isSome then
          Except.error "Activator for alternative set is remapped"
        else Except.ok c
    | none => Except.ok c

/-- `Config::get_remap` (config.rs lines 114-120). -/
def Config.get_remap (c : Config) (input : String) (is_alternative : Bool) :
    Option Remap :=
  if is_alternative then c.alt.lookup input else c.main.lookup input

/-- Rust `str::to_lowercase`, restricted to the per-character lowering that is
exact on the ASCII names this program uses. -/
def to_lowercase (s : String) : String := String.mk (s.data.map Char.toLower)

/-- The direction of an enigo key/button call (`enigo::Direction`). -/
inductive KeyDirection where
  | press
  | release
  | click
deriving DecidableEq, Repr

/-- One observable side effect of the engine.  Device calls carry the enigo
mutex explicitly: `lockDevice`/`unlockDevice` bracket the statements executed
while `get_enigo().lock()` is held. -/
inductive Effect where
  | lockDevice
  | unlockDevice
  | key (k : Key) (d : KeyDirection)
  | button (b : MouseButton) (d : KeyDirection)
  | cancelTask (id : Nat)
  | spawnRepeatTask (id : Nat) (k : Key) (initial_delay sub_delay : ℚ)
  | spawnProcess (program : String) (args : List String)
deriving DecidableEq, Repr

/-- The process-wide mutable state touched by `press_input`:
`IS_ALTERNATIVE_ACTIVE`, the `REPEAT_KEY_ABORT_HANDLE` slot (task ids stand
for `JoinHandle`s), the set of spawned-and-not-yet-aborted repeat tasks, and
a fresh-id counter for newly spawned tasks. -/
structure EngineState where
  is_alternative_active : Bool := false
  repeat_slot : Option Nat := none
  active_repeat_tasks : List Nat := []
  next_task_id : Nat := 0
deriving DecidableEq, Repr

/-- The initial process state (statics at startup, main.rs lines 35-42). -/
def init_state : EngineState := {}

/-- The `match remap` dispatch of `press_input` (main.rs lines 79-159).
`sh` is the external collaborator `shlex::split`. -/
def runRemap (cfg : Config) (sh : String → Option (List String))
    (st : EngineState) (remap : Option Remap) (is_press_down : Bool) :
    EngineState × List Effect :=
  match remap with
  | none => (st, [])
  | some (Remap.seq keys) =>
      (st,
        if is_press_down then
          Effect.lockDevice ::
            (keys.map (fun k => Effect.key k KeyDirection.press) ++
              keys.reverse.map (fun k => Effect.key k KeyDirection.release) ++
              [Effect.unlockDevice])
        else [])
  | some (Remap.sync keys) =>
      (st,
        Effect.lockDevice ::
          ((if is_press_down then
              keys.map (fun k => Effect.key k KeyDirection.press)
            else
              keys.reverse.map (fun k => Effect.key k KeyDirection.release)) ++
            [Effect.unlockDevice]))
  | some (Remap.repeatKey k) =>
      let taken :=
        match st.repeat_slot with
        | some h =>
            ({ st with
                repeat_slot := none
                active_repeat_tasks := st.active_repeat_tasks.erase h },
              [Effect.cancelTask h])
        | none => (st, [])
      if is_press_down then
        let tid := taken.1.next_task_id
        ({ taken.1 with
            repeat_slot := some tid
            active_repeat_tasks := taken.1.active_repeat_tasks ++ [tid]
            next_task_id := tid + 1 },
          taken.2 ++
            [Effect.lockDevice, Effect.key k KeyDirection.click,
              Effect.unlockDevice,
              Effect.spawnRepeatTask tid k cfg.key_repeat_initial_delay
                cfg.key_repeat_sub_delay])
      else taken
  | some (Remap.mouse b) =>
      (st,
        [Effect.lockDevice,
          Effect.button b
            (if is_press_down then KeyDirection.press else KeyDirection.release),
          Effect.unlockDevice])
  | some (Remap.command cmdline) =>
      (st,
        if is_press_down then
          match sh cmdline with
          | some [] => []
          | some (c0 :: rest) => [Effect.spawnProcess c0 rest]
          | none => []
        else [])

/-- `press_input` (main.rs lines 67-161): the activator check, then remap
resolution through `Config::get_remap` with the current mode flag, then the
dispatch `runRemap`. -/
def press_input (cfg : Config) (sh : String → Option (List String))
    (st : EngineState) (input_name : String) (is_press_down : Bool) :
    EngineState × List Effect :=
  match cfg.alternative_activator with
  | some activator =>
      if input_name = to_lowercase activator then
        ({ st with is_alternative_active := is_press_down }, [])
      else
        runRemap cfg sh st (cfg.get_remap input_name st.is_alternative_active)
          is_press_down
  | none =>
      runRemap cfg sh st (cfg.get_remap input_name st.is_alternative_active)
        is_press_down

/-- Folding a whole list of (input name, edge) events through `press_input`,
accumulating the final engine state. -/
def run_events (cfg : Config) (sh : String → Option (List String))
    (st : EngineState) : List (String × Bool) → EngineState
  | [] => st
  | e :: rest => run_events cfg sh (press_input cfg sh st e.1 e.2).1 rest

/-! ### The analog stick processors (main.rs lines 163-233)

f32 arithmetic is modelled over the reals. -/

open Real in
/-- Rust `f32::atan2` (`self.atan2(other)` is `atan2 y x`), on the reals:
the principal angle of the point (x, y), in (-pi, pi], with `atan2 0 0 = 0`. -/
noncomputable def atan2 (y x : ℝ) : ℝ :=
  if 0 < x then Real.arctan (y / x)
  else if x < 0 then
    if 0 ≤ y then Real.arctan (y / x) + Real.pi
    else Real.arctan (y / x) - Real.pi
  else
    if 0 < y then Real.pi / 2
    else if y < 0 then -(Real.pi / 2)
    else 0

/-- `std::f32::consts::FRAC_PI_8`; the right-stick sector boundaries
`TRIGGER_ANGLES` (main.rs lines 194-199) are its odd multiples 1, 3, 5, 7. -/
noncomputable def FRAC_PI_8 : ℝ := Real.pi / 8

/-- The four discrete directions the right stick can synthesize. -/
inductive Direction where
  | up
  | down
  | left
  | right
deriving DecidableEq, Repr

/-- The logical input name that `right_stick` presses for each direction
(main.rs lines 214-224). -/
def Direction.input_name : Direction → String
  | Direction.up => "right_stick_up"
  | Direction.down => "right_stick_down"
  | Direction.left => "right_stick_left"
  | Direction.right => "right_stick_right"

/-- The angle-to-sector if-chain of `right_stick` (main.rs lines 214-224):
`TRIGGER_ANGLES[i]` is spelled out as the corresponding multiple of
`FRAC_PI_8`. -/
noncomputable def angle_to_direction (stick_angle : ℝ) : Option Direction :=
  if 3 * FRAC_PI_8 ≤ stick_angle ∧ stick_angle ≤ 5 * FRAC_PI_8 then
    some Direction.up
  else if -(5 * FRAC_PI_8) ≤ stick_angle ∧ stick_angle ≤ -(3 * FRAC_PI_8) then
    some Direction.down
  else if 7 * FRAC_PI_8 ≤ stick_angle ∨ stick_angle ≤ -(7 * FRAC_PI_8) then
    some Direction.left
  else if -FRAC_PI_8 ≤ stick_angle ∧ stick_angle ≤ FRAC_PI_8 then
    some Direction.right
  else none

/-- `distance_to_origin` as computed by both stick loops (main.rs lines 172
and 205): `(x * x + y * y).sqrt()`. -/
noncomputable def distance_to_origin (x y : ℝ) : ℝ :=
  Real.sqrt (x * x + y * y)

/-- One tick of the `right_stick` loop body (main.rs lines 202-232), as a
function of the current `pressed_input_name` state and the sampled (x, y):
returns the new state and the `press_input` calls made (name, is_press). -/
noncomputable def rightStickTick (cfg : Config) (pressed_input_name : Option String)
    (x y : ℝ) : Option String × List (String × Bool) :=
  if distance_to_origin x y ≤ (cfg.right_stick_dead_zone : ℝ) then
    match pressed_input_name with
    | some input_name => (none, [(input_name, false)])
    | none => (none, [])
  else if (cfg.right_stick_trigger_zone : ℝ) ≤ distance_to_origin x y ∧
      pressed_input_name = none then
    match angle_to_direction (atan2 y x) with
    | some d => (some d.input_name, [(d.input_name, true)])
    | none => (none, [])
  else
    (pressed_input_name, [])

/-- A sequence of right-stick ticks over a list of sampled readings,
accumulating the synthesized press/release events in order. -/
noncomputable def rightStickRun (cfg : Config) (st : Option String) :
    List (ℝ × ℝ) → Option String × List (String × Bool)
  | [] => (st, [])
  | r :: rs =>
      let step := rightStickTick cfg st r.1 r.2
      let rest := rightStickRun cfg step.1 rs
      (rest.1, step.2 ++ rest.2)

/-- Replaying one synthesized (name, is_press) event onto the multiset of
directions an observer would consider pressed. -/
def applyEvent (pressed : List String) (e : String × Bool) : List String :=
  if e.2 then e.1 :: pressed else pressed.erase e.1

/-- The directions an observer of the synthesized event stream considers
pressed after a list of events. -/
def pressedAfter (init : List String) (evs : List (String × Bool)) :
    List String :=
  evs.foldl applyEvent init

/-- The `dead_zone_shrink_ratio` expression of `left_stick` (main.rs lines
173-174): `(1. - dead_zone / distance).max(0.)`.  The source evaluates it in
f32 without a branch; for `distance = 0` and a positive dead zone (guaranteed
by `Config::check_error`) IEEE arithmetic gives `dead_zone / 0 = +inf`,
`1 - inf = -inf`, `(-inf).max(0) = 0`, so the real-valued embedding returns 0
at `distance = 0` explicitly. -/
noncomputable def dead_zone_shrink_ratio (dead_zone distance : ℝ) : ℝ :=
  if distance = 0 then 0 else max (1 - dead_zone / distance) 0

/-- `mouse_acceleration` as computed once at the top of `left_stick`
(main.rs lines 164-166). -/
noncomputable def mouse_acceleration (cfg : Config) : ℝ :=
  ((cfg.mouse_max_speed : ℝ) - (cfg.mouse_initial_speed : ℝ)) /
    (cfg.mouse_ticks_to_reach_max_speed : ℝ)

/-- Rust's `as i32` cast from f32 (main.rs line 182): round toward zero,
saturating at the i32 bounds. -/
noncomputable def f32_as_i32 (r : ℝ) : ℤ :=
  max (-(2 ^ 31)) (min (2 ^ 31 - 1) (if 0 ≤ r then ⌊r⌋ else ⌈r⌉))

/-- `delta_x` of a left-stick tick (main.rs line 175):
`x * dead_zone_shrink_ratio * curr_mouse_speed`. -/
noncomputable def delta_x (cfg : Config) (curr_mouse_speed x y : ℝ) : ℝ :=
  x * dead_zone_shrink_ratio (cfg.left_stick_dead_zone : ℝ)
      (distance_to_origin x y) * curr_mouse_speed

/-- `delta_y` of a left-stick tick (main.rs line 176). -/
noncomputable def delta_y (cfg : Config) (curr_mouse_speed x y : ℝ) : ℝ :=
  y * dead_zone_shrink_ratio (cfg.left_stick_dead_zone : ℝ)
      (distance_to_origin x y) * curr_mouse_speed

/-- One tick of the `left_stick` loop body (main.rs lines 169-189), as a
function of `curr_mouse_speed` and the sampled (x, y): returns the new speed
and the relative mouse move injected, if any. -/
noncomputable def leftStickTick (cfg : Config) (curr_mouse_speed : ℝ)
    (x y : ℝ) : ℝ × Option (ℤ × ℤ) :=
  if delta_x cfg curr_mouse_speed x y ≠ 0 ∨ delta_y cfg curr_mouse_speed x y ≠ 0 then
    (min (curr_mouse_speed + mouse_acceleration cfg) (cfg.mouse_max_speed : ℝ),
      some (f32_as_i32 (delta_x cfg curr_mouse_speed x y),
        f32_as_i32 (-(delta_y cfg curr_mouse_speed x y))))
  else
    ((cfg.mouse_initial_speed : ℝ), none)

/-- A sequence of left-stick ticks over a list of sampled readings,
accumulating the per-tick injected move (or `none`) in order. -/
noncomputable def leftStickRun (cfg : Config) (speed : ℝ) :
    List (ℝ × ℝ) → ℝ × List (Option (ℤ × ℤ))
  | [] => (speed, [])
  | r :: rs =>
      let step := leftStickTick cfg speed r.1 r.2
      let rest := leftStickRun cfg step.1 rs
      (rest.1, step.2 :: rest.2)

/-! ### Sector sets as worded in the specification

These four predicates transcribe the spec's sector descriptions ("right spans
(-pi/8, pi/8]; up spans [3pi/8, 5pi/8]; down spans [-5pi/8, -3pi/8]; left
covers angle >= 7pi/8 or angle <= -7pi/8") for comparison with the source's
`angle_to_direction`. -/

/-- Modelled from the spec: the "right" sector (-pi/8, pi/8]. -/
noncomputable def spec_sector_right (a : ℝ) : Prop :=
  -FRAC_PI_8 < a ∧ a ≤ FRAC_PI_8

/-- Modelled from the spec: the "up" sector [3pi/8, 5pi/8]. -/
noncomputable def spec_sector_up (a : ℝ) : Prop :=
  3 * FRAC_PI_8 ≤ a ∧ a ≤ 5 * FRAC_PI_8

/-- Modelled from the spec: the "down" sector [-5pi/8, -3pi/8]. -/
noncomputable def spec_sector_down (a : ℝ) : Prop :=
  -(5 * FRAC_PI_8) ≤ a ∧ a ≤ -(3 * FRAC_PI_8)

/-- Modelled from the spec: the "left" sector (angle >= 7pi/8 or <= -7pi/8). -/
noncomputable def spec_sector_left (a : ℝ) : Prop :=
  7 * FRAC_PI_8 ≤ a ∨ a ≤ -(7 * FRAC_PI_8)

/-! ### Concrete configurations used by witnesses and counterexamples -/

/-- A configuration whose mouse speed ramp runs downhill: the initial speed
exceeds the maximum, so `mouse_acceleration` is (10 - 100) / 90 = -1. -/
def cfg_ramp_down : Config :=
  { mouse_initial_speed := 100
    mouse_max_speed := 10
    mouse_ticks_to_reach_max_speed := 90
    left_stick_dead_zone := 0.5 }

/-- A configuration with a mixed-case alternate-set activator. -/
def cfg_activator : Config :=
  { alternative_activator := some "Tab"
    main := [("south", Remap.mouse "left")] }

/-- A configuration mapping "south" to an ordered key sequence. -/
def cfg_seq : Config :=
  { main := [("south", Remap.seq ["a", "b"])] }

/-- A configuration mapping "east" to a shell command. -/
def cfg_cmd : Config :=
  { main := [("east", Remap.command "echo hi")] }

/-- A configuration mapping two buttons to repeating keys. -/
def cfg_rep : Config :=
  { main := [("south", Remap.repeatKey "z"), ("north", Remap.repeatKey "x")] }

/-- The repeat-slot invariant: the set of live repeat tasks is exactly the
occupant of the slot. -/
def repeat_inv (st : EngineState) : Prop :=
  st.active_repeat_tasks = st.repeat_slot.toList

/-! ## Helper lemmas -/

/-- When the input is not the activator, `press_input` is the dispatch of the
resolved remap. -/
theorem press_input_resolved (cfg : Config) (sh : String → Option (List String))
    (st : EngineState) (input_name : String) (is_press : Bool)
    (hna : ∀ act, cfg.alternative_activator = some act →
      input_name ≠ to_lowercase act) :
    press_input cfg sh st input_name is_press =
      runRemap cfg sh st (cfg.get_remap input_name st.is_alternative_active)
        is_press := by
  rcases hact : cfg.alternative_activator with _ | act
  · simp only [press_input, hact]
  · simp only [press_input, hact]
    rw [if_neg (hna act hact)]

/-! ## C8: configuration validation -/

/-- C8: `Config::check_error` fails exactly when a zone size is non-positive,
or the trigger zone is smaller than the dead zone, or the configured activator
is also a key of the main remap set; otherwise it returns the configuration
unchanged (equal trigger and dead zones are accepted). -/
theorem check_error_iff (c : Config) :
    ((∃ msg, c.check_error = Except.error msg) ↔
      (c.left_stick_dead_zone ≤ 0 ∨ c.right_stick_trigger_zone ≤ 0 ∨
        c.right_stick_dead_zone ≤ 0 ∨
        c.right_stick_trigger_zone < c.right_stick_dead_zone ∨
        ∃ a, c.alternative_activator = some a ∧ (c.main.lookup a).isSome)) ∧
    (¬(c.left_stick_dead_zone ≤ 0 ∨ c.right_stick_trigger_zone ≤ 0 ∨
        c.right_stick_dead_zone ≤ 0 ∨
        c.right_stick_trigger_zone < c.right_stick_dead_zone ∨
        ∃ a, c.alternative_activator = some a ∧ (c.main.lookup a).isSome) →
      c.check_error = Except.ok c) := by
  rcases hact : c.alternative_activator with _ | a
  · simp only [Config.check_error, hact]
    split_ifs with h1 h2
    · refine ⟨⟨fun _ => ?_, fun _ => ⟨_, rfl⟩⟩, fun hno => absurd (by tauto) hno⟩
      tauto
    · refine ⟨⟨fun _ => ?_, fun _ => ⟨_, rfl⟩⟩, fun hno => absurd (by tauto) hno⟩
      tauto
    · refine ⟨⟨(fun h => by cases h.choose_spec), fun hor => ?_⟩, fun _ => rfl⟩
      rcases hor with h | h | h | h | ⟨a, ha, -⟩
      · exact absurd (Or.inl h) h1
      · exact absurd (Or.inr (Or.inl h)) h1
      · exact absurd (Or.inr (Or.inr h)) h1
      · exact absurd h h2
      · cases ha
  · simp only [Config.check_error, hact]
    split_ifs with h1 h2 h3
    · refine ⟨⟨fun _ => ?_, fun _ => ⟨_, rfl⟩⟩, fun hno => absurd (by tauto) hno⟩
      tauto
    · refine ⟨⟨fun _ => ?_, fun _ => ⟨_, rfl⟩⟩, fun hno => absurd (by tauto) hno⟩
      tauto
    · refine ⟨⟨fun _ => ?_, fun _ => ⟨_, rfl⟩⟩, fun hno => ?_⟩
      · exact Or.inr (Or.inr (Or.inr (Or.inr ⟨a, rfl, h3⟩)))
      · exact absurd (Or.inr (Or.inr (Or.inr (Or.inr ⟨a, rfl, h3⟩)))) hno
    · refine ⟨⟨(fun h => by cases h.choose_spec), fun hor => ?_⟩, fun _ => rfl⟩
      rcases hor with h | h | h | h | ⟨b, hb, hmem⟩
      · exact absurd (Or.inl h) h1
      · exact absurd (Or.inr (Or.inl h)) h1
      · exact absurd (Or.inr (Or.inr h)) h1
      · exact absurd h h2
      · injection hb with hab
        subst hab
        exact absurd hmem h3

/-- C8 witness: the default configuration is accepted unchanged. -/
theorem check_error_iff_witness :
    ¬(default_config.left_stick_dead_zone ≤ 0 ∨
        default_config.right_stick_trigger_zone ≤ 0 ∨
        default_config.right_stick_dead_zone ≤ 0 ∨
        default_config.right_stick_trigger_zone <
          default_config.right_stick_dead_zone ∨
        ∃ a, default_config.alternative_activator = some a ∧
          (default_config.main.lookup a).isSome) ∧
    default_config.check_error = Except.ok default_config := by
  have h : ¬(default_config.left_stick_dead_zone ≤ 0 ∨
      default_config.right_stick_trigger_zone ≤ 0 ∨
      default_config.right_stick_dead_zone ≤ 0 ∨
      default_config.right_stick_trigger_zone <
        default_config.right_stick_dead_zone ∨
      ∃ a, default_config.alternative_activator = some a ∧
        (default_config.main.lookup a).isSome) := by
    simp only [default_config]
    push_neg
    refine ⟨by norm_num, by norm_num, by norm_num, by norm_num, ?_⟩
    rintro a ha
    cases ha
  exact ⟨h, (check_error_iff default_config).2 h⟩

/-! ## C7: activator handling and mode routing -/

/-- C7: for every call of `press_input` with a (lowercase, as all callers
pass) input name, if the name equals the configured activator under
case-insensitive comparison, the mode flag is set to the edge and no action is
resolved or executed; otherwise the input is resolved against the alternate
map exactly when the mode flag is set, and the main map otherwise. -/
theorem press_input_activator (cfg : Config) (sh : String → Option (List String))
    (st : EngineState) (input_name : String) (is_press : Bool)
    (hlower : to_lowercase input_name = input_name) :
    (∀ act, cfg.alternative_activator = some act →
      to_lowercase input_name = to_lowercase act →
      press_input cfg sh st input_name is_press =
        ({ st with is_alternative_active := is_press }, [])) ∧
    ((∀ act, cfg.alternative_activator = some act →
        to_lowercase input_name ≠ to_lowercase act) →
      press_input cfg sh st input_name is_press =
        runRemap cfg sh st
          ((if st.is_alternative_active then cfg.alt else cfg.main).lookup
            input_name) is_press) := by
  constructor
  · intro act hact heq
    rw [hlower] at heq
    simp only [press_input, hact]
    rw [if_pos heq]
  · intro hne
    have hna : ∀ act, cfg.alternative_activator = some act →
        input_name ≠ to_lowercase act := by
      intro act hact heq
      exact hne act hact (by rw [hlower, heq])
    rw [press_input_resolved cfg sh st input_name is_press hna]
    have : cfg.get_remap input_name st.is_alternative_active =
        (if st.is_alternative_active then cfg.alt else cfg.main).lookup
          input_name := by
      unfold Config.get_remap
      rcases st.is_alternative_active with _ | _ <;> simp
    rw [this]

/-- C7 witness: with activator "Tab", pressing the lowercase name "tab" sets
the mode flag and performs no action. -/
theorem press_input_activator_witness :
    to_lowercase "tab" = "tab" ∧
    cfg_activator.alternative_activator = some "Tab" ∧
    to_lowercase "tab" = to_lowercase "Tab" ∧
    press_input cfg_activator (fun _ => none) init_state "tab" true =
      ({ init_state with is_alternative_active := true }, []) := by
  have h1 : to_lowercase "tab" = "tab" := by decide
  have h2 : to_lowercase "tab" = to_lowercase "Tab" := by decide
  exact ⟨h1, rfl, h2,
    (press_input_activator cfg_activator (fun _ => none) init_state "tab" true
      h1).1 "Tab" rfl h2⟩

/-! ## C6: ordered key sequences fire on press only -/

/-- No `Effect.key` produced by mapping keys is the device lock. -/
theorem count_lock_in_key_map (keys : List Key) (d : KeyDirection) :
    (keys.map (fun k => Effect.key k d)).count Effect.lockDevice = 0 := by
  rw [List.count_eq_zero]
  intro hmem
  rw [List.mem_map] at hmem
  obtain ⟨k, -, hk⟩ := hmem
  cases hk

/-- C6: an input resolving to an ordered key sequence presses every key in
declared order and releases them in reverse order, all inside one acquisition
of the output-device lock, and only on the press edge; the release edge makes
no device call at all. -/
theorem seq_press_only (cfg : Config) (sh : String → Option (List String))
    (st : EngineState) (input_name : String) (keys : List Key)
    (hna : ∀ act, cfg.alternative_activator = some act →
      input_name ≠ to_lowercase act)
    (hmap : cfg.get_remap input_name st.is_alternative_active =
      some (Remap.seq keys)) :
    press_input cfg sh st input_name true =
      (st, Effect.lockDevice ::
        (keys.map (fun k => Effect.key k KeyDirection.press) ++
          keys.reverse.map (fun k => Effect.key k KeyDirection.release) ++
          [Effect.unlockDevice])) ∧
    press_input cfg sh st input_name false = (st, []) ∧
    (press_input cfg sh st input_name true).2.count Effect.lockDevice = 1 := by
  have hpress := press_input_resolved cfg sh st input_name true hna
  have hrel := press_input_resolved cfg sh st input_name false hna
  rw [hmap] at hpress hrel
  refine ⟨?_, ?_, ?_⟩
  · rw [hpress]
    simp [runRemap]
  · rw [hrel]
    simp [runRemap]
  · rw [hpress]
    simp only [runRemap, if_pos trivial, List.count_cons, List.count_append,
      count_lock_in_key_map]
    decide
  
/-- C6 witness: pressing "south" under `cfg_seq` emits press a, press b,
release b, release a under one lock; releasing it emits nothing. -/
theorem seq_press_only_witness :
    cfg_seq.get_remap "south" init_state.is_alternative_active =
      some (Remap.seq ["a", "b"]) ∧
    press_input cfg_seq (fun _ => none) init_state "south" true =
      (init_state,
        [Effect.lockDevice, Effect.key "a" KeyDirection.press,
          Effect.key "b" KeyDirection.press, Effect.key "b" KeyDirection.release,
          Effect.key "a" KeyDirection.release, Effect.unlockDevice]) ∧
    press_input cfg_seq (fun _ => none) init_state "south" false =
      (init_state, []) := by
  have hna : ∀ act, cfg_seq.alternative_activator = some act →
      "south" ≠ to_lowercase act := by
    intro act hact
    cases hact
  have hmap : cfg_seq.get_remap "south" init_state.is_alternative_active =
      some (Remap.seq ["a", "b"]) := by decide
  have h := seq_press_only cfg_seq (fun _ => none) init_state "south" ["a", "b"]
    hna hmap
  refine ⟨hmap, ?_, h.2.1⟩
  rw [h.1]
  decide

/-! ## C9: command actions -/

/-- C9: an input resolving to a command tokenizes via the external splitter
on the press edge only; a successful split with at least one token spawns the
head program with the remaining tokens as arguments (outcome unobserved, no
state change); an unparseable line or an empty token list is a no-op, and the
release edge does nothing. -/
theorem command_press_spec (cfg : Config) (sh : String → Option (List String))
    (st : EngineState) (input_name : String) (cmdline : String)
    (hna : ∀ act, cfg.alternative_activator = some act →
      input_name ≠ to_lowercase act)
    (hmap : cfg.get_remap input_name st.is_alternative_active =
      some (Remap.command cmdline)) :
    (∀ c0 rest, sh cmdline = some (c0 :: rest) →
      press_input cfg sh st input_name true =
        (st, [Effect.spawnProcess c0 rest])) ∧
    (sh cmdline = some [] →
      press_input cfg sh st input_name true = (st, [])) ∧
    (sh cmdline = none →
      press_input cfg sh st input_name true = (st, [])) ∧
    press_input cfg sh st input_name false = (st, []) := by
  have hpress := press_input_resolved cfg sh st input_name true hna
  have hrel := press_input_resolved cfg sh st input_name false hna
  rw [hmap] at hpress hrel
  refine ⟨?_, ?_, ?_, ?_⟩
  · intro c0 rest hsh
    rw [hpress]
    simp [runRemap, hsh]
  · intro hsh
    rw [hpress]
    simp [runRemap, hsh]
  · intro hsh
    rw [hpress]
    simp [runRemap, hsh]
  · rw [hrel]
    simp [runRemap]

/-- C9 witness: pressing "east" under `cfg_cmd` with a splitter answering
["echo", "hi"] spawns echo with argument hi and leaves the state unchanged. -/
theorem command_press_spec_witness :
    cfg_cmd.get_remap "east" init_state.is_alternative_active =
      some (Remap.command "echo hi") ∧
    press_input cfg_cmd (fun _ => some ["echo", "hi"]) init_state "east" true =
      (init_state, [Effect.spawnProcess "echo" ["hi"]]) := by
  have hna : ∀ act, cfg_cmd.alternative_activator = some act →
      "east" ≠ to_lowercase act := by
    intro act hact
    cases hact
  have hmap : cfg_cmd.get_remap "east" init_state.is_alternative_active =
      some (Remap.command "echo hi") := by decide
  exact ⟨hmap,
    (command_press_spec cfg_cmd (fun _ => some ["echo", "hi"]) init_state "east"
      "echo hi" hna hmap).1 "echo" ["hi"] rfl⟩

/-! ## C2: the single repeating-key task slot -/

/-- Explicit form of a repeat-key press edge. -/
theorem repeat_press_eq (cfg : Config) (sh : String → Option (List String))
    (st : EngineState) (input_name : String) (k : Key)
    (hna : ∀ act, cfg.alternative_activator = some act →
      input_name ≠ to_lowercase act)
    (hmap : cfg.get_remap input_name st.is_alternative_active =
      some (Remap.repeatKey k)) :
    press_input cfg sh st input_name true =
      ({ st with
          repeat_slot := some st.next_task_id
          active_repeat_tasks :=
            (match st.repeat_slot with
              | some h => st.active_repeat_tasks.erase h
              | none => st.active_repeat_tasks) ++ [st.next_task_id]
          next_task_id := st.next_task_id + 1 },
        (match st.repeat_slot with
          | some h => [Effect.cancelTask h]
          | none => []) ++
          [Effect.lockDevice, Effect.key k KeyDirection.click,
            Effect.unlockDevice,
            Effect.spawnRepeatTask st.next_task_id k
              cfg.key_repeat_initial_delay cfg.key_repeat_sub_delay]) := by
  rw [press_input_resolved cfg sh st input_name true hna, hmap]
  rcases hslot : st.repeat_slot with _ | h
  · simp [runRemap, hslot]
  · simp [runRemap, hslot]

/-- Explicit form of a repeat-key release edge. -/
theorem repeat_release_eq (cfg : Config) (sh : String → Option (List String))
    (st : EngineState) (input_name : String) (k : Key)
    (hna : ∀ act, cfg.alternative_activator = some act →
      input_name ≠ to_lowercase act)
    (hmap : cfg.get_remap input_name st.is_alternative_active =
      some (Remap.repeatKey k)) :
    press_input cfg sh st input_name false =
      ((match st.repeat_slot with
        | some h =>
            { st with
                repeat_slot := none
                active_repeat_tasks := st.active_repeat_tasks.erase h }
        | none => st),
        (match st.repeat_slot with
          | some h => [Effect.cancelTask h]
          | none => [])) := by
  rw [press_input_resolved cfg sh st input_name false hna, hmap]
  rcases hslot : st.repeat_slot with _ | h
  · simp [runRemap, hslot]
  · simp [runRemap, hslot]

/-- Every `press_input` call preserves the repeat-slot invariant. -/
theorem press_input_preserves_repeat_inv (cfg : Config)
    (sh : String → Option (List String)) (st : EngineState)
    (input_name : String) (is_press : Bool) (hinv : repeat_inv st) :
    repeat_inv (press_input cfg sh st input_name is_press).1 := by
  unfold repeat_inv at hinv ⊢
  have hgen : ∀ r : Option Remap,
      (runRemap cfg sh st r is_press).1.active_repeat_tasks =
        (runRemap cfg sh st r is_press).1.repeat_slot.toList := by
    intro r
    rcases r with _ | (keys | keys | k | b | c)
    · exact hinv
    · exact hinv
    · exact hinv
    · rcases hslot : st.repeat_slot with _ | h
      · rw [hslot] at hinv
        rcases is_press with _ | _
        · simpa [runRemap, hslot] using hinv
        · simp [runRemap, hslot, hinv]
      · rw [hslot] at hinv
        rcases is_press with _ | _
        · simp [runRemap, hslot, hinv]
        · simp [runRemap, hslot, hinv]
    · exact hinv
    · exact hinv
  rcases hact : cfg.alternative_activator with _ | act
  · simp only [press_input, hact]
    exact hgen _
  · simp only [press_input, hact]
    by_cases hname : input_name = to_lowercase act
    · rw [if_pos hname]
      exact hinv
    · rw [if_neg hname]
      exact hgen _

/-- Any event sequence preserves the repeat-slot invariant. -/
theorem run_events_preserves_repeat_inv (cfg : Config)
    (sh : String → Option (List String)) :
    ∀ (evs : List (String × Bool)) (st : EngineState), repeat_inv st →
      repeat_inv (run_events cfg sh st evs)
  | [], _, hinv => hinv
  | e :: rest, st, hinv =>
      run_events_preserves_repeat_inv cfg sh rest _
        (press_input_preserves_repeat_inv cfg sh st e.1 e.2 hinv)

/-- C2: on any repeat-key edge the current occupant of the slot is cancelled
first; a press edge clicks the key once, then spawns and installs a fresh
repeating task; a release edge leaves the slot empty; along every event
sequence from startup the live repeat tasks are exactly the slot occupant
(hence at most one); and pressing repeat-key A then repeat-key B leaves
exactly B's task live, A's task no longer live and cancelled first. -/
theorem repeat_key_single_task (cfg : Config)
    (sh : String → Option (List String)) :
    (∀ (st : EngineState) (input_name : String) (k : Key) (is_press : Bool)
        (h : ℕ),
      (∀ act, cfg.alternative_activator = some act →
        input_name ≠ to_lowercase act) →
      cfg.get_remap input_name st.is_alternative_active =
        some (Remap.repeatKey k) →
      st.repeat_slot = some h →
      (press_input cfg sh st input_name is_press).2.head? =
        some (Effect.cancelTask h)) ∧
    (∀ (st : EngineState) (input_name : String) (k : Key),
      (∀ act, cfg.alternative_activator = some act →
        input_name ≠ to_lowercase act) →
      cfg.get_remap input_name st.is_alternative_active =
        some (Remap.repeatKey k) →
      press_input cfg sh st input_name true =
        ({ st with
            repeat_slot := some st.next_task_id
            active_repeat_tasks :=
              (match st.repeat_slot with
                | some h => st.active_repeat_tasks.erase h
                | none => st.active_repeat_tasks) ++ [st.next_task_id]
            next_task_id := st.next_task_id + 1 },
          (match st.repeat_slot with
            | some h => [Effect.cancelTask h]
            | none => []) ++
            [Effect.lockDevice, Effect.key k KeyDirection.click,
              Effect.unlockDevice,
              Effect.spawnRepeatTask st.next_task_id k
                cfg.key_repeat_initial_delay cfg.key_repeat_sub_delay])) ∧
    (∀ (st : EngineState) (input_name : String) (k : Key),
      (∀ act, cfg.alternative_activator = some act →
        input_name ≠ to_lowercase act) →
      cfg.get_remap input_name st.is_alternative_active =
        some (Remap.repeatKey k) →
      press_input cfg sh st input_name false =
        ((match st.repeat_slot with
          | some h =>
              { st with
                  repeat_slot := none
                  active_repeat_tasks := st.active_repeat_tasks.erase h }
          | none => st),
          (match st.repeat_slot with
            | some h => [Effect.cancelTask h]
            | none => []))) ∧
    (∀ evs : List (String × Bool),
      repeat_inv (run_events cfg sh init_state evs) ∧
      (run_events cfg sh init_state evs).active_repeat_tasks.length ≤ 1) ∧
    (∀ (st : EngineState) (nA nB : String) (kA kB : Key),
      repeat_inv st →
      (∀ act, cfg.alternative_activator = some act → nA ≠ to_lowercase act) →
      (∀ act, cfg.alternative_activator = some act → nB ≠ to_lowercase act) →
      cfg.get_remap nA st.is_alternative_active = some (Remap.repeatKey kA) →
      cfg.get_remap nB st.is_alternative_active = some (Remap.repeatKey kB) →
      (press_input cfg sh (press_input cfg sh st nA true).1 nB
          true).1.repeat_slot = some (st.next_task_id + 1) ∧
      (press_input cfg sh (press_input cfg sh st nA true).1 nB
          true).1.active_repeat_tasks = [st.next_task_id + 1] ∧
      st.next_task_id ∉
        (press_input cfg sh (press_input cfg sh st nA true).1 nB
          true).1.active_repeat_tasks ∧
      (press_input cfg sh (press_input cfg sh st nA true).1 nB true).2.head? =
        some (Effect.cancelTask st.next_task_id)) := by
  refine ⟨?_, ?_, ?_, ?_, ?_⟩
  · intro st input_name k is_press h hna hmap hslot
    rcases is_press with _ | _
    · rw [repeat_release_eq cfg sh st input_name k hna hmap, hslot]
      simp
    · rw [repeat_press_eq cfg sh st input_name k hna hmap, hslot]
      simp
  · intro st input_name k hna hmap
    exact repeat_press_eq cfg sh st input_name k hna hmap
  · intro st input_name k hna hmap
    exact repeat_release_eq cfg sh st input_name k hna hmap
  · intro evs
    have hinv : repeat_inv (run_events cfg sh init_state evs) :=
      run_events_preserves_repeat_inv cfg sh evs init_state rfl
    refine ⟨hinv, ?_⟩
    unfold repeat_inv at hinv
    rw [hinv]
    rcases (run_events cfg sh init_state evs).repeat_slot with _ | h <;> simp
  · intro st nA nB kA kB hinv hnaA hnaB hmapA hmapB
    have hA := repeat_press_eq cfg sh st nA kA hnaA hmapA
    have hflagA : (press_input cfg sh st nA true).1.is_alternative_active =
        st.is_alternative_active := by
      rw [hA]
    have hnextA : (press_input cfg sh st nA true).1.next_task_id =
        st.next_task_id + 1 := by
      rw [hA]
    have hslotA : (press_input cfg sh st nA true).1.repeat_slot =
        some st.next_task_id := by
      rw [hA]
    have hactiveA : (press_input cfg sh st nA true).1.active_repeat_tasks =
        [st.next_task_id] := by
      rw [hA]
      unfold repeat_inv at hinv
      rcases hslot : st.repeat_slot with _ | h
      · rw [hslot] at hinv
        simp [hinv]
      · rw [hslot] at hinv
        simp [hinv]
    have hmapB' : cfg.get_remap nB
        (press_input cfg sh st nA true).1.is_alternative_active =
        some (Remap.repeatKey kB) := by
      rw [hflagA]
      exact hmapB
    have hB := repeat_press_eq cfg sh (press_input cfg sh st nA true).1 nB kB
      hnaB hmapB'
    refine ⟨?_, ?_, ?_, ?_⟩
    · rw [hB]
      simp [hnextA]
    · rw [hB]
      simp only [hslotA, hactiveA, hnextA, List.erase_cons_head,
        List.nil_append]
    · rw [hB]
      simp only [hslotA, hactiveA, hnextA, List.erase_cons_head,
        List.nil_append, List.mem_singleton]
      omega
    · rw [hB]
      rw [hslotA]
      simp

/-- C2 witness: from startup, pressing repeat-key "south" (task 0) then
repeat-key "north" leaves exactly task 1 live, and task 0 is cancelled
first. -/
theorem repeat_key_single_task_witness :
    repeat_inv init_state ∧
    cfg_rep.get_remap "south" init_state.is_alternative_active =
      some (Remap.repeatKey "z") ∧
    cfg_rep.get_remap "north" init_state.is_alternative_active =
      some (Remap.repeatKey "x") ∧
    (press_input cfg_rep (fun _ => none)
        (press_input cfg_rep (fun _ => none) init_state "south" true).1 "north"
        true).1.active_repeat_tasks = [init_state.next_task_id + 1] ∧
    init_state.next_task_id ∉
      (press_input cfg_rep (fun _ => none)
        (press_input cfg_rep (fun _ => none) init_state "south" true).1 "north"
        true).1.active_repeat_tasks := by
  have hinv : repeat_inv init_state := rfl
  have hnaA : ∀ act, cfg_rep.alternative_activator = some act →
      "south" ≠ to_lowercase act := by
    intro act hact
    cases hact
  have hnaB : ∀ act, cfg_rep.alternative_activator = some act →
      "north" ≠ to_lowercase act := by
    intro act hact
    cases hact
  have hmapA : cfg_rep.get_remap "south" init_state.is_alternative_active =
      some (Remap.repeatKey "z") := by decide
  have hmapB : cfg_rep.get_remap "north" init_state.is_alternative_active =
      some (Remap.repeatKey "x") := by decide
  have h := (repeat_key_single_task cfg_rep (fun _ => none)).2.2.2.2 init_state
    "south" "north" "z" "x" hinv hnaA hnaB hmapA hmapB
  exact ⟨hinv, hmapA, hmapB, h.2.1, h.2.2.1⟩

/-! ## C4: the dead zone and the centered stick are safe -/

/-- C4: for any reading at distance at most the (positive) dead zone --
including the exactly-centered reading -- the shrink ratio is 0, both deltas
are exactly 0, no pointer move is injected, and the speed resets to the
initial speed. -/
theorem left_stick_dead_zone_safe (cfg : Config) (s x y : ℝ)
    (hdz : 0 < cfg.left_stick_dead_zone)
    (hd : distance_to_origin x y ≤ (cfg.left_stick_dead_zone : ℝ)) :
    dead_zone_shrink_ratio (cfg.left_stick_dead_zone : ℝ)
      (distance_to_origin x y) = 0 ∧
    delta_x cfg s x y = 0 ∧ delta_y cfg s x y = 0 ∧
    leftStickTick cfg s x y = ((cfg.mouse_initial_speed : ℝ), none) := by
  have hratio : dead_zone_shrink_ratio (cfg.left_stick_dead_zone : ℝ)
      (distance_to_origin x y) = 0 := by
    unfold dead_zone_shrink_ratio
    split_ifs with h0
    · rfl
    · have hdpos : 0 < distance_to_origin x y :=
        lt_of_le_of_ne (Real.sqrt_nonneg _) (Ne.symm h0)
      have h1 : 1 ≤ (cfg.left_stick_dead_zone : ℝ) / distance_to_origin x y :=
        (one_le_div hdpos).mpr hd
      have : 1 - (cfg.left_stick_dead_zone : ℝ) / distance_to_origin x y ≤ 0 :=
        by linarith
      exact max_eq_right this
  have hdx : delta_x cfg s x y = 0 := by
    unfold delta_x
    rw [hratio]
    ring
  have hdy : delta_y cfg s x y = 0 := by
    unfold delta_y
    rw [hratio]
    ring
  refine ⟨hratio, hdx, hdy, ?_⟩
  unfold leftStickTick
  rw [if_neg]
  push_neg
  exact ⟨hdx, hdy⟩

/-- C4 witness: the exactly-centered reading (0, 0) under the default
configuration injects nothing and resets the speed. -/
theorem left_stick_dead_zone_safe_witness :
    0 < default_config.left_stick_dead_zone ∧
    distance_to_origin 0 0 ≤ (default_config.left_stick_dead_zone : ℝ) ∧
    leftStickTick default_config 7 0 0 =
      ((default_config.mouse_initial_speed : ℝ), none) := by
  have h1 : 0 < default_config.left_stick_dead_zone := by
    norm_num [default_config]
  have h2 : distance_to_origin 0 0 ≤ (default_config.left_stick_dead_zone : ℝ) := by
    unfold distance_to_origin
    rw [show ((0:ℝ) * 0 + 0 * 0) = 0 by ring, Real.sqrt_zero]
    norm_num [default_config]
  exact ⟨h1, h2, (left_stick_dead_zone_safe default_config 7 0 0 h1 h2).2.2.2⟩

/-! ## C10: the injected move is the truncated deltas -/

/-- A real of absolute value below one truncates (toward zero, with i32
saturation) to zero. -/
theorem f32_as_i32_small (r : ℝ) (hr : |r| < 1) : f32_as_i32 r = 0 := by
  unfold f32_as_i32
  rw [abs_lt] at hr
  split_ifs with h0
  · rw [Int.floor_eq_zero_iff.mpr (by constructor <;> simp [h0, hr.2])]
    decide
  · push_neg at h0
    rw [Int.ceil_eq_zero_iff.mpr (by constructor <;> [linarith [hr.1]; linarith])]
    decide

/-- C10: on a nonzero-delta tick the injected move is exactly the pair of
truncated-toward-zero 32-bit integers of (delta_x, -delta_y); consequently,
when both deltas are nonzero yet below 1 in absolute value, a (0, 0) move is
issued while the speed still advances toward the maximum. -/
theorem left_stick_truncation (cfg : Config) (s x y : ℝ)
    (hnz : delta_x cfg s x y ≠ 0 ∨ delta_y cfg s x y ≠ 0) :
    leftStickTick cfg s x y =
      (min (s + mouse_acceleration cfg) (cfg.mouse_max_speed : ℝ),
        some (f32_as_i32 (delta_x cfg s x y),
          f32_as_i32 (-(delta_y cfg s x y)))) ∧
    (|delta_x cfg s x y| < 1 → |delta_y cfg s x y| < 1 →
      leftStickTick cfg s x y =
        (min (s + mouse_acceleration cfg) (cfg.mouse_max_speed : ℝ),
          some (0, 0))) := by
  have hinject : leftStickTick cfg s x y =
      (min (s + mouse_acceleration cfg) (cfg.mouse_max_speed : ℝ),
        some (f32_as_i32 (delta_x cfg s x y),
          f32_as_i32 (-(delta_y cfg s x y)))) := by
    unfold leftStickTick
    rw [if_pos hnz]
  refine ⟨hinject, fun hx hy => ?_⟩
  rw [hinject, f32_as_i32_small _ hx, f32_as_i32_small _ (by rwa [abs_neg])]

/-- C10 witness: under the default configuration, speed 1 and reading (1, 0)
the delta is 0.95, so a (0, 0) move is injected while the speed advances. -/
theorem left_stick_truncation_witness :
    delta_x default_config 1 1 0 = 0.95 ∧
    leftStickTick default_config 1 1 0 =
      (min ((1 : ℝ) + mouse_acceleration default_config)
        (default_config.mouse_max_speed : ℝ), some (0, 0)) := by
  have hd : distance_to_origin 1 0 = 1 := by
    unfold distance_to_origin
    rw [show ((1:ℝ) * 1 + 0 * 0) = 1 by ring, Real.sqrt_one]
  have hratio : dead_zone_shrink_ratio
      (default_config.left_stick_dead_zone : ℝ) (distance_to_origin 1 0) =
      0.95 := by
    rw [hd]
    unfold dead_zone_shrink_ratio
    rw [if_neg one_ne_zero]
    norm_num [default_config]
  have hdx : delta_x default_config 1 1 0 = 0.95 := by
    unfold delta_x
    rw [hratio]
    norm_num
  have hdy : delta_y default_config 1 1 0 = 0 := by
    unfold delta_y
    ring
  have h := left_stick_truncation default_config 1 1 0
    (Or.inl (by rw [hdx]; norm_num))
  exact ⟨hdx, h.2 (by rw [hdx]; rw [abs_of_pos] <;> norm_num)
    (by rw [hdy]; norm_num)⟩

/-! ## C5: the left-stick speed ramp -/

/-- One clamped acceleration step keeps the closed-form ramp value, provided
the ramp starts no higher than the cap. -/
theorem min_ramp_step (I M a : ℝ) (k : ℕ) (hIM : I ≤ M) :
    min (min (I + k * a) M + a) M = min (I + (k + 1 : ℕ) * a) M := by
  have hcast : I + ((k + 1 : ℕ) : ℝ) * a = I + (k : ℝ) * a + a := by
    push_cast
    ring
  rw [hcast]
  rcases le_or_lt (I + (k : ℝ) * a) M with h | h
  · rw [min_eq_left h]
  · rcases le_or_lt 0 a with ha | ha
    · rw [min_eq_right h.le, min_eq_right (by linarith),
        min_eq_right (by linarith)]
    · have hk : (0 : ℝ) ≤ (k : ℝ) := Nat.cast_nonneg k
      have : (k : ℝ) * a ≤ 0 := mul_nonpos_iff.mpr (Or.inl ⟨hk, ha.le⟩)
      linarith

/-- Along a run in which every tick injects a move, the speed follows the
closed-form clamped ramp. -/
theorem leftStickRun_formula (cfg : Config)
    (hIM : (cfg.mouse_initial_speed : ℝ) ≤ (cfg.mouse_max_speed : ℝ)) :
    ∀ (readings : List (ℝ × ℝ)) (s : ℝ) (k : ℕ),
      s = min ((cfg.mouse_initial_speed : ℝ) + k * mouse_acceleration cfg)
        (cfg.mouse_max_speed : ℝ) →
      (∀ mv ∈ (leftStickRun cfg s readings).2, mv.isSome) →
      (leftStickRun cfg s readings).1 =
        min ((cfg.mouse_initial_speed : ℝ) +
            (k + readings.length) * mouse_acceleration cfg)
          (cfg.mouse_max_speed : ℝ)
  | [], s, k, hs, _ => by
      simpa using hs
  | r :: rs, s, k, hs, hmv => by
      have hstep : (leftStickTick cfg s r.1 r.2).2.isSome := by
        have := hmv (leftStickTick cfg s r.1 r.2).2 (by simp [leftStickRun])
        exact this
      have hbranch : delta_x cfg s r.1 r.2 ≠ 0 ∨ delta_y cfg s r.1 r.2 ≠ 0 := by
        by_contra hno
        unfold leftStickTick at hstep
        rw [if_neg hno] at hstep
        simp at hstep
      have htick : (leftStickTick cfg s r.1 r.2).1 =
          min (s + mouse_acceleration cfg) (cfg.mouse_max_speed : ℝ) := by
        unfold leftStickTick
        rw [if_pos hbranch]
      have hnext : (leftStickTick cfg s r.1 r.2).1 =
          min ((cfg.mouse_initial_speed : ℝ) +
              (k + 1 : ℕ) * mouse_acceleration cfg)
            (cfg.mouse_max_speed : ℝ) := by
        rw [htick, hs]
        exact min_ramp_step _ _ _ k hIM
      have hrest : ∀ mv ∈ (leftStickRun cfg (leftStickTick cfg s r.1 r.2).1
          rs).2, mv.isSome := by
        intro mv hmem
        exact hmv mv (by simp [leftStickRun, hmem])
      have hind := leftStickRun_formula cfg hIM rs
        (leftStickTick cfg s r.1 r.2).1 (k + 1) hnext hrest
      have hgoal : (leftStickRun cfg s (r :: rs)).1 =
          (leftStickRun cfg (leftStickTick cfg s r.1 r.2).1 rs).1 := by
        simp [leftStickRun]
      rw [hgoal, hind]
      congr 2
      push_cast [List.length_cons]
      ring

/-- C5 counterexample: under `cfg_ramp_down` (initial speed 100 above the
maximum 10, acceleration -1) two injecting ticks at reading (1, 0) end at
speed 9, while the claimed formula min(initial + N * accel, max) gives 10. -/
theorem speed_ramp_counterexample :
    mouse_acceleration cfg_ramp_down = -1 ∧
    (∀ mv ∈ (leftStickRun cfg_ramp_down (cfg_ramp_down.mouse_initial_speed : ℝ)
        [(1, 0), (1, 0)]).2, mv.isSome) ∧
    (leftStickRun cfg_ramp_down (cfg_ramp_down.mouse_initial_speed : ℝ)
        [(1, 0), (1, 0)]).1 = 9 ∧
    min ((cfg_ramp_down.mouse_initial_speed : ℝ) +
        2 * mouse_acceleration cfg_ramp_down)
      (cfg_ramp_down.mouse_max_speed : ℝ) = 10 ∧
    (9 : ℝ) ≠ 10 := by
  have haccel : mouse_acceleration cfg_ramp_down = -1 := by
    unfold mouse_acceleration
    norm_num [cfg_ramp_down]
  have hd : distance_to_origin 1 0 = 1 := by
    unfold distance_to_origin
    rw [show ((1:ℝ) * 1 + 0 * 0) = 1 by ring, Real.sqrt_one]
  have hratio : dead_zone_shrink_ratio
      (cfg_ramp_down.left_stick_dead_zone : ℝ) (distance_to_origin 1 0) =
      1 / 2 := by
    rw [hd]
    unfold dead_zone_shrink_ratio
    rw [if_neg one_ne_zero]
    norm_num [cfg_ramp_down]
  have htick : ∀ s : ℝ, s ≠ 0 → leftStickTick cfg_ramp_down s 1 0 =
      (min (s + mouse_acceleration cfg_ramp_down)
        (cfg_ramp_down.mouse_max_speed : ℝ),
        some (f32_as_i32 (s / 2), f32_as_i32 0)) := by
    intro s hs
    have hdx : delta_x cfg_ramp_down s 1 0 = s / 2 := by
      unfold delta_x
      rw [hratio]
      ring
    have hdy : delta_y cfg_ramp_down s 1 0 = 0 := by
      unfold delta_y
      ring
    unfold leftStickTick
    rw [if_pos (Or.inl (by rw [hdx]; intro hc; exact hs (by linarith)))]
    rw [hdx, hdy, neg_zero]
  have hM : (cfg_ramp_down.mouse_max_speed : ℝ) = 10 := by
    norm_num [cfg_ramp_down]
  have hI : (cfg_ramp_down.mouse_initial_speed : ℝ) = 100 := by
    norm_num [cfg_ramp_down]
  have htick1 : leftStickTick cfg_ramp_down 100 1 0 =
      (10, some (f32_as_i32 50, f32_as_i32 0)) := by
    rw [htick 100 (by norm_num), haccel, hM]
    norm_num
  have htick2 : leftStickTick cfg_ramp_down 10 1 0 =
      (9, some (f32_as_i32 5, f32_as_i32 0)) := by
    rw [htick 10 (by norm_num), haccel, hM]
    norm_num
  refine ⟨haccel, ?_, ?_, ?_, by norm_num⟩
  · intro mv hmem
    rw [hI] at hmem
    simp [leftStickRun, htick1, htick2] at hmem
    rcases hmem with h | h
    · rw [h]
      rfl
    · rw [h]
      rfl
  · rw [hI]
    simp [leftStickRun, htick1, htick2]
  · rw [hI, hM, haccel]
    norm_num

/-- C5 (amended: requires initial speed <= max speed; `cfg_ramp_down` above
shows the unrestricted claim fails): starting from rest, N consecutive
injecting ticks leave the speed at min(initial + N * acceleration, max); each
injecting tick issues the move computed from the pre-update speed before the
speed advances; a tick with both deltas zero resets the speed to initial. -/
theorem left_stick_speed_ramp (cfg : Config)
    (hIM : cfg.mouse_initial_speed ≤ cfg.mouse_max_speed) :
    (∀ readings : List (ℝ × ℝ),
      (∀ mv ∈ (leftStickRun cfg (cfg.mouse_initial_speed : ℝ) readings).2,
        mv.isSome) →
      (leftStickRun cfg (cfg.mouse_initial_speed : ℝ) readings).1 =
        min ((cfg.mouse_initial_speed : ℝ) +
            readings.length * mouse_acceleration cfg)
          (cfg.mouse_max_speed : ℝ)) ∧
    (∀ s x y : ℝ, delta_x cfg s x y ≠ 0 ∨ delta_y cfg s x y ≠ 0 →
      leftStickTick cfg s x y =
        (min (s + mouse_acceleration cfg) (cfg.mouse_max_speed : ℝ),
          some (f32_as_i32 (delta_x cfg s x y),
            f32_as_i32 (-(delta_y cfg s x y))))) ∧
    (∀ s x y : ℝ, delta_x cfg s x y = 0 → delta_y cfg s x y = 0 →
      leftStickTick cfg s x y = ((cfg.mouse_initial_speed : ℝ), none)) := by
  have hIM' : (cfg.mouse_initial_speed : ℝ) ≤ (cfg.mouse_max_speed : ℝ) := by
    exact_mod_cast hIM
  refine ⟨?_, ?_, ?_⟩
  · intro readings hmv
    have h0 : (cfg.mouse_initial_speed : ℝ) =
        min ((cfg.mouse_initial_speed : ℝ) +
          (0 : ℕ) * mouse_acceleration cfg) (cfg.mouse_max_speed : ℝ) := by
      simp [min_eq_left hIM']
    have h := leftStickRun_formula cfg hIM' readings
      (cfg.mouse_initial_speed : ℝ) 0 h0 hmv
    simpa using h
  · intro s x y hnz
    unfold leftStickTick
    rw [if_pos hnz]
  · intro s x y hx hy
    unfold leftStickTick
    rw [if_neg]
    push_neg
    exact ⟨hx, hy⟩

/-- C5 witness: under the default configuration a centered tick resets the
speed to the initial speed. -/
theorem left_stick_speed_ramp_witness :
    default_config.mouse_initial_speed ≤ default_config.mouse_max_speed ∧
    delta_x default_config 5 0 0 = 0 ∧ delta_y default_config 5 0 0 = 0 ∧
    leftStickTick default_config 5 0 0 =
      ((default_config.mouse_initial_speed : ℝ), none) := by
  have hIM : default_config.mouse_initial_speed ≤
      default_config.mouse_max_speed := by
    norm_num [default_config]
  have hdx : delta_x default_config 5 0 0 = 0 := by
    unfold delta_x
    ring
  have hdy : delta_y default_config 5 0 0 = 0 := by
    unfold delta_y
    ring
  exact ⟨hIM, hdx, hdy,
    (left_stick_speed_ramp default_config hIM).2.2 5 0 0 hdx hdy⟩

/-! ## C1: right-stick hysteresis -/

/-- A tick strictly outside the dead zone keeps an already-pressed direction
and emits nothing. -/
theorem rightStickTick_keep (cfg : Config) (n : String) (x y : ℝ)
    (h : (cfg.right_stick_dead_zone : ℝ) < distance_to_origin x y) :
    rightStickTick cfg (some n) x y = (some n, []) := by
  unfold rightStickTick
  rw [if_neg (not_le.mpr h), if_neg]
  rintro ⟨-, h2⟩
  exact Option.noConfusion h2

/-- A tick at or inside the dead zone releases the pressed direction. -/
theorem rightStickTick_release (cfg : Config) (n : String) (x y : ℝ)
    (h : distance_to_origin x y ≤ (cfg.right_stick_dead_zone : ℝ)) :
    rightStickTick cfg (some n) x y = (none, [(n, false)]) := by
  unfold rightStickTick
  rw [if_pos h]

/-- A run whose readings all stay strictly outside the dead zone keeps the
pressed direction and emits nothing. -/
theorem rightStickRun_keep (cfg : Config) (n : String) :
    ∀ readings : List (ℝ × ℝ),
      (∀ r ∈ readings,
        (cfg.right_stick_dead_zone : ℝ) < distance_to_origin r.1 r.2) →
      rightStickRun cfg (some n) readings = (some n, [])
  | [], _ => rfl
  | r :: rs, hall => by
      have hr := hall r (List.mem_cons_self r rs)
      have hrest := rightStickRun_keep cfg n rs
        (fun p hp => hall p (List.mem_cons_of_mem r hp))
      simp [rightStickRun, rightStickTick_keep cfg n r.1 r.2 hr, hrest]

/-- A press event is emitted only from the unpressed state at or beyond the
trigger zone. -/
theorem rightStickTick_press_inv (cfg : Config) (st : Option String)
    (x y : ℝ) (n : String) (hmem : (n, true) ∈ (rightStickTick cfg st x y).2) :
    st = none ∧ (cfg.right_stick_trigger_zone : ℝ) ≤ distance_to_origin x y := by
  unfold rightStickTick at hmem
  split_ifs at hmem with h1 h2
  · rcases st with _ | m
    · simp at hmem
    · simp at hmem
  · refine ⟨h2.2, h2.1⟩
  · simp at hmem

/-- One tick moves the observer's pressed set exactly to the new state. -/
theorem rightStickTick_pressed (cfg : Config) (st : Option String) (x y : ℝ) :
    pressedAfter st.toList (rightStickTick cfg st x y).2 =
      (rightStickTick cfg st x y).1.toList := by
  unfold rightStickTick
  split_ifs with h1 h2
  · rcases st with _ | m
    · rfl
    · simp [pressedAfter, applyEvent]
  · rcases hA : angle_to_direction (atan2 y x) with _ | d
    · rw [h2.2]
      rfl
    · rw [h2.2]
      simp [pressedAfter, applyEvent]
  · rfl

/-- Along any run the observer's pressed set equals the processor state. -/
theorem rightStickRun_pressed (cfg : Config) :
    ∀ (readings : List (ℝ × ℝ)) (st : Option String),
      pressedAfter st.toList (rightStickRun cfg st readings).2 =
        (rightStickRun cfg st readings).1.toList
  | [], st => rfl
  | r :: rs, st => by
      have h1 := rightStickTick_pressed cfg st r.1 r.2
      have h2 := rightStickRun_pressed cfg rs (rightStickTick cfg st r.1 r.2).1
      simp only [rightStickRun, pressedAfter, List.foldl_append] at h1 h2 ⊢
      rw [h1, h2]

/-- C1: right-stick zoning is hysteretic.  A pressed direction survives every
tick whose distance stays strictly above the dead zone (even below the
trigger zone) and emits nothing meanwhile; it is released, with exactly one
release event, on the first tick at or inside the dead zone; presses happen
only from the unpressed state at or beyond the trigger zone; and the set of
directions pressed by the processor never holds more than one element. -/
theorem right_stick_hysteresis (cfg : Config) (name : String) :
    (∀ readings : List (ℝ × ℝ),
      (∀ r ∈ readings,
        (cfg.right_stick_dead_zone : ℝ) < distance_to_origin r.1 r.2) →
      rightStickRun cfg (some name) readings = (some name, [])) ∧
    (∀ (mid : List (ℝ × ℝ)) (final : ℝ × ℝ),
      (∀ r ∈ mid,
        (cfg.right_stick_dead_zone : ℝ) < distance_to_origin r.1 r.2) →
      distance_to_origin final.1 final.2 ≤ (cfg.right_stick_dead_zone : ℝ) →
      rightStickRun cfg (some name) (mid ++ [final]) =
        (none, [(name, false)])) ∧
    (∀ (st : Option String) (x y : ℝ) (n : String),
      (n, true) ∈ (rightStickTick cfg st x y).2 →
      st = none ∧
        (cfg.right_stick_trigger_zone : ℝ) ≤ distance_to_origin x y) ∧
    (∀ (readings : List (ℝ × ℝ)) (st : Option String),
      pressedAfter st.toList (rightStickRun cfg st readings).2 =
        (rightStickRun cfg st readings).1.toList) ∧
    (∀ readings : List (ℝ × ℝ),
      (pressedAfter [] (rightStickRun cfg none readings).2).length ≤ 1) := by
  refine ⟨rightStickRun_keep cfg name, ?_, rightStickTick_press_inv cfg, ?_, ?_⟩
  · intro mid final hmid hfinal
    induction mid with
    | nil =>
        simp [rightStickRun,
          rightStickTick_release cfg name final.1 final.2 hfinal]
    | cons r rs ih =>
        have hr := hmid r (List.mem_cons_self r rs)
        have hrest := ih (fun p hp => hmid p (List.mem_cons_of_mem r hp))
        simp only [List.cons_append, rightStickRun,
          rightStickTick_keep cfg name r.1 r.2 hr]
        simp [hrest]
  · exact fun readings st => rightStickRun_pressed cfg readings st
  · intro readings
    have h := rightStickRun_pressed cfg readings none
    simp only [Option.toList_none] at h
    rw [h]
    rcases (rightStickRun cfg none readings).1 with _ | d <;> simp

/-- C1 witness: under the default configuration a pressed direction survives
a reading at distance 1 (above the dead zone) unchanged, and is released by
the centered reading. -/
theorem right_stick_hysteresis_witness :
    ((default_config.right_stick_dead_zone : ℝ) < distance_to_origin 1 0) ∧
    rightStickRun default_config (some "right_stick_up") [(1, 0)] =
      (some "right_stick_up", []) ∧
    (distance_to_origin 0 0 ≤ (default_config.right_stick_dead_zone : ℝ)) ∧
    rightStickRun default_config (some "right_stick_up") [(1, 0), (0, 0)] =
      (none, [("right_stick_up", false)]) := by
  have h1 : (default_config.right_stick_dead_zone : ℝ) <
      distance_to_origin 1 0 := by
    unfold distance_to_origin
    rw [show ((1:ℝ) * 1 + 0 * 0) = 1 by ring, Real.sqrt_one]
    norm_num [default_config]
  have h2 : distance_to_origin 0 0 ≤
      (default_config.right_stick_dead_zone : ℝ) := by
    unfold distance_to_origin
    rw [show ((0:ℝ) * 0 + 0 * 0) = 0 by ring, Real.sqrt_zero]
    norm_num [default_config]
  have hall : ∀ r ∈ [((1:ℝ), (0:ℝ))],
      (default_config.right_stick_dead_zone : ℝ) <
        distance_to_origin r.1 r.2 := by
    intro r hr
    rw [List.mem_singleton] at hr
    subst hr
    exact h1
  refine ⟨h1, (right_stick_hysteresis default_config "right_stick_up").1
    [(1, 0)] hall, h2, ?_⟩
  exact (right_stick_hysteresis default_config "right_stick_up").2.1
    [(1, 0)] (0, 0) hall h2

/-! ## C3: the angle-to-sector mapping -/

/-- C3 counterexample: the boundary angle -pi/8 is mapped to "right" by the
source's closed-interval test, although it lies in none of the four sectors
worded in the specification (whose "right" sector is the half-open
(-pi/8, pi/8]). -/
theorem angle_sector_boundary_counterexample :
    angle_to_direction (-FRAC_PI_8) = some Direction.right ∧
    ¬spec_sector_right (-FRAC_PI_8) ∧ ¬spec_sector_up (-FRAC_PI_8) ∧
    ¬spec_sector_down (-FRAC_PI_8) ∧ ¬spec_sector_left (-FRAC_PI_8) := by
  have hp8 : 0 < FRAC_PI_8 := by
    unfold FRAC_PI_8
    linarith [Real.pi_pos]
  refine ⟨?_, ?_, ?_, ?_, ?_⟩
  · unfold angle_to_direction
    rw [if_neg (by rintro ⟨h, -⟩; linarith), if_neg (by rintro ⟨-, h⟩; linarith),
      if_neg (by rintro (h | h) <;> linarith),
      if_pos ⟨le_refl _, by linarith⟩]
  · unfold spec_sector_right
    rintro ⟨h, -⟩
    exact lt_irrefl _ h
  · unfold spec_sector_up
    rintro ⟨h, -⟩
    linarith
  · unfold spec_sector_down
    rintro ⟨-, h⟩
    linarith
  · unfold spec_sector_left
    rintro (h | h) <;> linarith

/-- C3 (amended: the "right" sector of the code is the closed interval
[-pi/8, pi/8], not the spec's half-open (-pi/8, pi/8]): the mapping assigns
"up" exactly on [3pi/8, 5pi/8], "down" exactly on [-5pi/8, -3pi/8], "left"
exactly on angle >= 7pi/8 or angle <= -7pi/8, "right" exactly on
[-pi/8, pi/8]; every angle in the (open) gaps between sectors maps to no
direction; and a gap angle never triggers a press. -/
theorem angle_to_direction_sectors (cfg : Config) (a : ℝ) :
    (angle_to_direction a = some Direction.up ↔ spec_sector_up a) ∧
    (angle_to_direction a = some Direction.down ↔ spec_sector_down a) ∧
    (angle_to_direction a = some Direction.left ↔ spec_sector_left a) ∧
    (angle_to_direction a = some Direction.right ↔
      (-FRAC_PI_8 ≤ a ∧ a ≤ FRAC_PI_8)) ∧
    (¬spec_sector_up a → ¬spec_sector_down a → ¬spec_sector_left a →
      ¬(-FRAC_PI_8 ≤ a ∧ a ≤ FRAC_PI_8) → angle_to_direction a = none) ∧
    (∀ x y : ℝ, angle_to_direction (atan2 y x) = none →
      rightStickTick cfg none x y = (none, [])) := by
  have hp8 : 0 < FRAC_PI_8 := by
    unfold FRAC_PI_8
    linarith [Real.pi_pos]
  refine ⟨?_, ?_, ?_, ?_, ?_, ?_⟩
  · unfold angle_to_direction spec_sector_up
    split_ifs with h1 h2 h3 h4
    · exact iff_of_true rfl h1
    · exact iff_of_false (by simp) h1
    · exact iff_of_false (by simp) h1
    · exact iff_of_false (by simp) h1
    · exact iff_of_false (by simp) h1
  · unfold angle_to_direction spec_sector_down
    split_ifs with h1 h2 h3 h4
    · exact iff_of_false (by simp)
        (by rintro ⟨-, hd⟩; linarith [h1.1])
    · exact iff_of_true rfl h2
    · exact iff_of_false (by simp) h2
    · exact iff_of_false (by simp) h2
    · exact iff_of_false (by simp) h2
  · unfold angle_to_direction spec_sector_left
    split_ifs with h1 h2 h3 h4
    · exact iff_of_false (by simp)
        (by rintro (hl | hl) <;> linarith [h1.1, h1.2])
    · exact iff_of_false (by simp)
        (by rintro (hl | hl) <;> linarith [h2.1, h2.2])
    · exact iff_of_true rfl h3
    · exact iff_of_false (by simp) h3
    · exact iff_of_false (by simp) h3
  · unfold angle_to_direction
    split_ifs with h1 h2 h3 h4
    · exact iff_of_false (by simp)
        (by rintro ⟨-, hr⟩; linarith [h1.1])
    · exact iff_of_false (by simp)
        (by rintro ⟨hr, -⟩; linarith [h2.2])
    · exact iff_of_false (by simp)
        (by rintro ⟨hr1, hr2⟩; rcases h3 with hl | hl <;> linarith)
    · exact iff_of_true rfl h4
    · exact iff_of_false (by simp) h4
  · intro hnu hnd hnl hnr
    unfold spec_sector_up at hnu
    unfold spec_sector_down at hnd
    unfold spec_sector_left at hnl
    unfold angle_to_direction
    rw [if_neg hnu, if_neg hnd, if_neg hnl, if_neg hnr]
  · intro x y hA
    unfold rightStickTick
    split_ifs with hb1 hb2
    · rfl
    · rw [hA]
    · rfl

/-- C3 witness: pi/2 lies in the "up" sector and is mapped to "up". -/
theorem angle_to_direction_sectors_witness :
    spec_sector_up (Real.pi / 2) ∧
    angle_to_direction (Real.pi / 2) = some Direction.up := by
  have hs : spec_sector_up (Real.pi / 2) := by
    unfold spec_sector_up FRAC_PI_8
    constructor <;> linarith [Real.pi_pos]
  exact ⟨hs,
    ((angle_to_direction_sectors default_config (Real.pi / 2)).1).mpr hs⟩
